import Mathlib

/-!
Shallow embedding of the kitchen scheduling core of the effective-robot
repository (packages kitchen/order.go, kitchen/shelf.go and the kitchen
dispatcher) together with proofs about the specified behaviour.

Modelling conventions:
* Go `time.Time` / `time.Duration` values are rationals (an absolute clock
  value and durations measured in the same unit); the injectable clock
  `now()` becomes an explicit `now : ℚ` argument of every operation.
* Go `float64` decay arithmetic is modelled with exact rationals.
* The heap of shelves is a list `List StaticShelf`; a Go shelf pointer is
  the index (`Nat`) of the shelf in that list, so Go pointer equality is
  index equality.  An order's `shelf` field is an `Option Nat`.
* Go errors are an inductive enumeration naming the distinct return sites.
* Mutation is explicit state passing: an operation returns the new order,
  the new shelf heap and the error result.
-/

namespace EffectiveRobot

/-- The order lifecycle states of `order.go`; `uninit` is the Go zero value
of `OrderState` (the empty string). -/
inductive OrderState where
  | uninit
  | created
  | ready
  | enroute
  | pickedUp
  | trashed
deriving DecidableEq, Repr

/-- The error results of the kitchen core, one constructor per distinct
error return site. -/
inductive KError where
  | wrongState
  | terminal
  | expired
  | atCapacity
  | notFound
  | unsupported
  | noShelf
deriving DecidableEq, Repr

/-- `staticShelf` of shelf.go: the Go map `orders` is a list of order ids
plus the separately maintained `numOrders` counter. -/
structure StaticShelf where
  name : String
  orders : List String
  numOrders : Nat
  capacity : Nat
  supported : List String
  decayRate : ℚ
deriving DecidableEq, Repr

/-- `NewStaticShelf`. -/
def newStaticShelf (name : String) (capacity : Nat) (supported : List String)
    (decayRate : ℚ) : StaticShelf :=
  { name := name, orders := [], numOrders := 0, capacity := capacity,
    supported := supported, decayRate := decayRate }

/-- `staticShelf.Put`: a no-op for an id already present, `AtCapacity` when
full, otherwise inserts. -/
def StaticShelf.put (s : StaticShelf) (oid : String) : StaticShelf × Option KError :=
  if oid ∈ s.orders then (s, none)
  else if s.capacity ≤ s.numOrders then (s, some .atCapacity)
  else ({ s with numOrders := s.numOrders + 1, orders := s.orders ++ [oid] }, none)

/-- `staticShelf.Remove`: errors when absent, otherwise deletes the entry. -/
def StaticShelf.remove (s : StaticShelf) (oid : String) : StaticShelf × Option KError :=
  if oid ∈ s.orders then
    ({ s with numOrders := s.numOrders - 1, orders := s.orders.erase oid }, none)
  else (s, some .notFound)

/-- The `Order` struct of order.go (immutable identity fields plus the
mutable lifecycle fields). -/
structure Order where
  id : String
  name : String
  temp : String
  shelfLife : ℚ
  baseDecayRate : ℚ
  state : OrderState
  prevDecayed : ℚ
  createdAt : ℚ
  readyAt : ℚ
  enrouteAt : ℚ
  pickedUpAt : ℚ
  trashedAt : ℚ
  shelf : Option Nat
  placedAt : ℚ
deriving DecidableEq, Repr

/-- `NewOrder`; the uuid produced by Go is passed in as `id`.  Timestamps
start at the Go zero value. -/
def newOrder (id name temp : String) (shelfLife decayRate : ℚ) : Order :=
  { id := id, name := name, temp := temp, shelfLife := shelfLife,
    baseDecayRate := decayRate, state := .uninit, prevDecayed := 0,
    createdAt := 0, readyAt := 0, enrouteAt := 0, pickedUpAt := 0,
    trashedAt := 0, shelf := none, placedAt := 0 }

/-- Decay rate of the shelf at index `sid` (0 for a dangling index, which
the kitchen never produces). -/
def shelfDecay (shelves : List StaticShelf) (sid : Nat) : ℚ :=
  match shelves.get? sid with
  | some s => s.decayRate
  | none => 0

/-- Supported temperatures of the shelf at index `sid`. -/
def shelfSupported (shelves : List StaticShelf) (sid : Nat) : List String :=
  match shelves.get? sid with
  | some s => s.supported
  | none => []

/-- `Order.age` (the unsafe `age` helper of order.go). -/
def Order.age (o : Order) (now : ℚ) : ℚ :=
  match o.state with
  | .pickedUp => o.pickedUpAt - o.readyAt
  | .trashed => 0
  | _ => now - o.readyAt

/-- `Order.rawValue`. -/
def Order.rawValue (o : Order) (now : ℚ) : ℚ :=
  match o.state with
  | .uninit | .created | .trashed => 0
  | _ => o.shelfLife - o.age now

/-- `Order.decayed`: running decay on the current shelf plus base decay,
added to the accumulated decay of previous shelves. -/
def Order.decayed (o : Order) (shelves : List StaticShelf) (now : ℚ) : ℚ :=
  let shelfPart : ℚ :=
    match o.shelf with
    | some sid =>
      let t := if o.state = .pickedUp then o.pickedUpAt else now
      shelfDecay shelves sid * (t - o.placedAt)
    | none => 0
  o.prevDecayed + (shelfPart + o.baseDecayRate * o.age now)

/-- `Order.value`. -/
def Order.value (o : Order) (shelves : List StaticShelf) (now : ℚ) : ℚ :=
  o.rawValue now - o.decayed shelves now

/-- `Order.isExpired` (the unsafe `isExpired`): only Ready/Enroute orders
with non-positive value are expired. -/
def Order.isExpired (o : Order) (shelves : List StaticShelf) (now : ℚ) : Bool :=
  match o.state with
  | .uninit | .created | .pickedUp | .trashed => false
  | _ => decide (o.value shelves now ≤ 0)

/-- `removeOrder` of order.go: credit the running decay of the current
shelf into `prevDecayed`, remove the id from that shelf (the error of
`Remove` is ignored) and clear the back-reference. -/
def removeOrder (o : Order) (shelves : List StaticShelf) (now : ℚ) :
    Order × List StaticShelf :=
  match o.shelf with
  | none => (o, shelves)
  | some sid =>
    let decay := shelfDecay shelves sid * (now - o.placedAt)
    let shelves1 :=
      match shelves.get? sid with
      | some s => shelves.set sid (s.remove o.id).1
      | none => shelves
    ({ o with prevDecayed := o.prevDecayed + decay, shelf := none }, shelves1)

/-- `Order.SetShelf`: `Put` on the target first (propagating its error
without mutation), then detach from the old shelf and update the shelf
metadata.  A dangling target index (impossible through the kitchen, where
every candidate indexes the heap) reports `notFound`. -/
def Order.setShelf (o : Order) (shelves : List StaticShelf) (now : ℚ)
    (target : Nat) : Order × List StaticShelf × Option KError :=
  match shelves.get? target with
  | none => (o, shelves, some .notFound)
  | some s =>
    match s.put o.id with
    | (_, some e) => (o, shelves, some e)
    | (s1, none) =>
      let shelves1 := shelves.set target s1
      let p := removeOrder o shelves1 now
      ({ p.1 with shelf := some target, placedAt := now }, p.2, none)

/-- `Order.TransitionOrder`: the guarded transition primitive.  The side
effect runs after the state write and its error is propagated. -/
def Order.transitionOrder (o : Order) (shelves : List StaticShelf) (now : ℚ)
    (expected next : OrderState)
    (sideEffect : Order → List StaticShelf → Order × List StaticShelf × Option KError) :
    Order × List StaticShelf × Option KError :=
  if o.state ≠ expected then (o, shelves, some .wrongState)
  else if o.state = .pickedUp ∨ o.state = .trashed then (o, shelves, some .terminal)
  else if o.isExpired shelves now then
    let p := removeOrder { o with state := .trashed, trashedAt := now } shelves now
    (p.1, p.2, some .expired)
  else
    sideEffect { o with state := next } shelves

/-- The no-op side effect (`func(o *Order) error { return nil }`). -/
def noEffect : Order → List StaticShelf → Order × List StaticShelf × Option KError :=
  fun o sh => (o, sh, none)

/-- The skip test of `optimizePlacement`: a current shelf exists and is
already at least as good as the candidate. -/
def skipWorse (shelves : List StaticShelf) (current : Option Nat) (sid : Nat) : Bool :=
  match current with
  | some c => decide (shelfDecay shelves c ≤ shelfDecay shelves sid)
  | none => false

/-- The inner loop of `optimizePlacement` over one candidate shelf's
supported temperature list. -/
def tryShelfSup (now : ℚ) (current : Option Nat) (sid : Nat) :
    Order → List StaticShelf → List String → Order × List StaticShelf × Bool
  | o, shelves, [] => (o, shelves, false)
  | o, shelves, sup :: rest =>
    if o.temp = sup then
      if current = some sid then tryShelfSup now current sid o shelves rest
      else if skipWorse shelves current sid then tryShelfSup now current sid o shelves rest
      else
        match o.setShelf shelves now sid with
        | (o1, sh1, none) => (o1, sh1, true)
        | (o1, sh1, some _) => tryShelfSup now current sid o1 sh1 rest
    else tryShelfSup now current sid o shelves rest

/-- The outer loop of `optimizePlacement` over the candidate shelves. -/
def optimizeLoop (now : ℚ) (current : Option Nat) :
    Order → List StaticShelf → List Nat → Order × List StaticShelf × Bool
  | o, shelves, [] => (o, shelves, false)
  | o, shelves, sid :: rest =>
    match tryShelfSup now current sid o shelves (shelfSupported shelves sid) with
    | (o1, sh1, true) => (o1, sh1, true)
    | (o1, sh1, false) => optimizeLoop now current o1 sh1 rest

/-- `Kitchen.optimizePlacement`: trash an expired order, otherwise walk the
candidates looking for a strictly better supporting shelf with room. -/
def optimizePlacement (o : Order) (shelves : List StaticShelf) (now : ℚ)
    (candidates : List Nat) : Order × List StaticShelf × Bool :=
  if o.isExpired shelves now then
    let r := o.transitionOrder shelves now o.state .trashed noEffect
    (r.1, r.2.1, false)
  else
    optimizeLoop now o.shelf o shelves candidates

/-- The `Kitchen` struct: shelf index lists ordered by decay, and the
supported-temperature index (a Go map holding a slice per temperature,
modelled as an association list).  The injectable clock is an explicit
argument of the operations. -/
structure Kitchen where
  shelvesAsc : List Nat
  shelvesDesc : List Nat
  supportedIndex : List (String × List Nat)
deriving DecidableEq, Repr

/-- Go map read `k.supportedIndex[temp]`. -/
def lookupIndex (idx : List (String × List Nat)) (t : String) : Option (List Nat) :=
  match idx.find? (fun p => p.1 == t) with
  | some p => some p.2
  | none => none

/-- Replacing the slice stored under a key: this is how the in-place
`sort.Slice` of `SetOrderReady` is observed through the map. -/
def updateIndex (idx : List (String × List Nat)) (t : String) (l : List Nat) :
    List (String × List Nat) :=
  idx.map (fun p => if p.1 == t then (p.1, l) else p)

/-- The `sort.Slice(..., Decay() < Decay())` calls, ascending by decay. -/
def sortByDecay (shelves : List StaticShelf) (l : List Nat) : List Nat :=
  l.insertionSort (fun a b => shelfDecay shelves a ≤ shelfDecay shelves b)

/-- `Kitchen.SetOrderReady`.  Note that the sort of the looked-up slice is
in place in Go, so the kitchen's index is updated with the sorted list. -/
def Kitchen.setOrderReady (k : Kitchen) (o : Order) (shelves : List StaticShelf)
    (now : ℚ) : Kitchen × Order × List StaticShelf × Option KError :=
  match lookupIndex k.supportedIndex o.temp with
  | none =>
    let r := o.transitionOrder shelves now .created .trashed (fun o1 sh =>
      let p := removeOrder { o1 with state := .trashed, trashedAt := now } sh now
      (p.1, p.2, none))
    (k, r.1, r.2.1, some .unsupported)
  | some supported =>
    let sorted := sortByDecay shelves supported
    let k1 := { k with supportedIndex := updateIndex k.supportedIndex o.temp sorted }
    let r := optimizePlacement o shelves now sorted
    if r.2.2 then
      let r2 := r.1.transitionOrder r.2.1 now .created .ready (fun o1 sh =>
        ({ o1 with readyAt := now }, sh, none))
      (k1, r2.1, r2.2.1, none)
    else
      let r2 := r.1.transitionOrder r.2.1 now .created .trashed (fun o1 sh =>
        let p := removeOrder { o1 with trashedAt := now } sh now
        (p.1, p.2, none))
      (k1, r2.1, r2.2.1, some .noShelf)

/-- `Kitchen.SetOrderEnroute` (the kitchen receiver only supplies the
clock, which is the explicit `now` here). -/
def setOrderEnroute (o : Order) (shelves : List StaticShelf) (now : ℚ) :
    Order × List StaticShelf × Option KError :=
  o.transitionOrder shelves now .ready .enroute (fun o1 sh =>
    ({ o1 with enrouteAt := now }, sh, none))

/-- `Kitchen.SetOrderPickedUp`: sets the pickup timestamp and detaches the
order from its shelf. -/
def setOrderPickedUp (o : Order) (shelves : List StaticShelf) (now : ℚ) :
    Order × List StaticShelf × Option KError :=
  o.transitionOrder shelves now .enroute .pickedUp (fun o1 sh =>
    let p := removeOrder { o1 with pickedUpAt := now } sh now
    (p.1, p.2, none))

/-- `Kitchen.CreateOrder`: uninitialized → Created (error ignored), then
straight to `SetOrderReady`. -/
def Kitchen.createOrder (k : Kitchen) (o : Order) (shelves : List StaticShelf)
    (now : ℚ) : Kitchen × Order × List StaticShelf × Option KError :=
  let r := o.transitionOrder shelves now .uninit .created (fun o1 sh =>
    ({ o1 with createdAt := now }, sh, none))
  k.setOrderReady r.1 r.2.1 now

/-- `shelfConfig` of the yaml topology. -/
structure ShelfConfig where
  name : String
  capacity : Nat
  supported : List String
  decayRate : ℚ
  type : String
deriving DecidableEq, Repr

/-- `strings.ToLower` on the ASCII type names of the configuration,
written as an explicit character map so that it evaluates in the kernel. -/
def lowerString (s : String) : String :=
  ⟨s.data.map Char.toLower⟩

/-- `buildShelf` translated literally: the Go `switch` has an empty body
for `case "static"` (no fallthrough), so a descriptor whose lowered type is
exactly "static" falls off the switch and returns nil, while every other
type takes the default branch and builds the shelf. -/
def buildShelf (cfg : ShelfConfig) : Option StaticShelf :=
  match lowerString cfg.type with
  | "static" => none
  | _ => some (newStaticShelf cfg.name cfg.capacity cfg.supported cfg.decayRate)

/-- Appending a shelf id under a temperature key (`index[supported] =
append(index[supported], shelf)`). -/
def addToIndex (idx : List (String × List Nat)) (t : String) (sid : Nat) :
    List (String × List Nat) :=
  if (idx.find? (fun p => p.1 == t)).isSome then
    idx.map (fun p => if p.1 == t then (p.1, p.2 ++ [sid]) else p)
  else idx ++ [(t, [sid])]

/-- `buildTopology`: build each configured shelf (skipping the nil ones)
and index it under each supported temperature. -/
def buildTopology (cfgs : List ShelfConfig) :
    List StaticShelf × List (String × List Nat) :=
  cfgs.foldl (fun acc cfg =>
    match buildShelf cfg with
    | none => acc
    | some s =>
      let sid := acc.1.length
      (acc.1 ++ [s], s.supported.foldl (fun i t => addToIndex i t sid) acc.2))
    ([], [])

/-- `NewKitchen` minus the yaml plumbing and the background goroutine:
build the topology and the two sorted shelf orderings. -/
def newKitchen (cfgs : List ShelfConfig) : Kitchen × List StaticShelf :=
  let bt := buildTopology cfgs
  let ids := List.range bt.1.length
  ({ shelvesAsc := ids.insertionSort (fun a b => shelfDecay bt.1 a ≤ shelfDecay bt.1 b),
     shelvesDesc := ids.insertionSort (fun a b => shelfDecay bt.1 b ≤ shelfDecay bt.1 a),
     supportedIndex := bt.2 }, bt.1)

/-- A whole-system state for reachability statements: the kitchen, one
tracked order and the shared shelf heap. -/
structure Sys where
  kitchen : Kitchen
  order : Order
  shelves : List StaticShelf
deriving DecidableEq, Repr

/-- The kitchen operations on the tracked order, each tagged with the clock
value at which it runs. -/
inductive KitchenOp where
  | create (now : ℚ)
  | ready (now : ℚ)
  | enroute (now : ℚ)
  | pickedup (now : ℚ)
  | optimize (now : ℚ) (cands : List Nat)

/-- Run one kitchen operation on a system state. -/
def applyOp (s : Sys) : KitchenOp → Sys
  | .create now =>
    let r := s.kitchen.createOrder s.order s.shelves now
    ⟨r.1, r.2.1, r.2.2.1⟩
  | .ready now =>
    let r := s.kitchen.setOrderReady s.order s.shelves now
    ⟨r.1, r.2.1, r.2.2.1⟩
  | .enroute now =>
    let r := setOrderEnroute s.order s.shelves now
    ⟨s.kitchen, r.1, r.2.1⟩
  | .pickedup now =>
    let r := setOrderPickedUp s.order s.shelves now
    ⟨s.kitchen, r.1, r.2.1⟩
  | .optimize now cands =>
    let r := optimizePlacement s.order s.shelves now cands
    ⟨s.kitchen, r.1, r.2.1⟩

/-- States reachable from `init` by any sequence of kitchen operations. -/
inductive Reach (init : Sys) : Sys → Prop where
  | refl : Reach init init
  | step {s : Sys} (h : Reach init s) (op : KitchenOp) : Reach init (applyOp s op)

/-- The shelf/state invariant of the specification: the back-reference is
set exactly in the Ready and Enroute states. -/
def shelfStateInv (o : Order) : Prop :=
  o.shelf ≠ none ↔ (o.state = .ready ∨ o.state = .enroute)

instance (o : Order) : Decidable (shelfStateInv o) := by
  unfold shelfStateInv; infer_instance

/-- States reachable when the operations are driven the way the repository
drives them: `CreateOrder` on fresh orders, `SetOrderReady` on orders that
are Created (ingress) or already shelved (the update handler only sees
shelved orders), the optimizer on shelved orders (it only receives orders
enumerated from a shelf), and arbitrary environment interleaving on the
shared shelf heap standing for the other orders' operations. -/
inductive GuardedReach (init : Sys) : Sys → Prop where
  | refl : GuardedReach init init
  | create {s : Sys} (h : GuardedReach init s) (hg : s.order.state = .uninit)
      (now : ℚ) : GuardedReach init (applyOp s (.create now))
  | ready {s : Sys} (h : GuardedReach init s)
      (hg : s.order.state = .created ∨ s.order.state = .ready ∨ s.order.state = .enroute)
      (now : ℚ) : GuardedReach init (applyOp s (.ready now))
  | enroute {s : Sys} (h : GuardedReach init s) (now : ℚ) :
      GuardedReach init (applyOp s (.enroute now))
  | pickedup {s : Sys} (h : GuardedReach init s) (now : ℚ) :
      GuardedReach init (applyOp s (.pickedup now))
  | optimize {s : Sys} (h : GuardedReach init s)
      (hg : s.order.state = .ready ∨ s.order.state = .enroute)
      (now : ℚ) (cands : List Nat) :
      GuardedReach init (applyOp s (.optimize now cands))
  | env {s : Sys} (h : GuardedReach init s) (sh : List StaticShelf) :
      GuardedReach init ⟨s.kitchen, s.order, sh⟩

/-- Shelf-level operation sequences for the occupancy invariant. -/
inductive ShelfOp where
  | put (oid : String)
  | remove (oid : String)

/-- Apply one shelf operation, discarding the error as callers may. -/
def applyShelfOp (s : StaticShelf) : ShelfOp → StaticShelf
  | .put oid => (s.put oid).1
  | .remove oid => (s.remove oid).1

/-- Run a sequence of shelf operations. -/
def runShelfOps (s : StaticShelf) (ops : List ShelfOp) : StaticShelf :=
  ops.foldl applyShelfOp s

/-- `Put` succeeds on shelf `sid` of the heap: the id is present already or
there is room. -/
def putOkB (shelves : List StaticShelf) (oid : String) (sid : Nat) : Bool :=
  match shelves.get? sid with
  | some s => oid ∈ s.orders || s.numOrders < s.capacity
  | none => false


/-! ### Concrete instances used by the claim witnesses and counterexamples -/

/-- Well-formedness of a shelf: the counter matches the map, the map is
duplicate-free and occupancy is within capacity. -/
def shelfWF (s : StaticShelf) : Prop :=
  s.numOrders = s.orders.length ∧ s.orders.Nodup ∧ s.orders.length ≤ s.capacity

def c1Shelf : StaticShelf :=
  { name := "a", orders := ["o1"], numOrders := 1, capacity := 1,
    supported := ["hot"], decayRate := 1 }

def c1Order : Order :=
  { newOrder "o1" "pizza" "hot" 10 1 with state := .ready, shelf := some 0 }

def c2Cfg : List ShelfConfig :=
  [{ name := "hot", capacity := 1, supported := ["hot"], decayRate := 1, type := "" }]

def c2Init : Sys :=
  ⟨(newKitchen c2Cfg).1, newOrder "o1" "soup" "hot" 100 1, (newKitchen c2Cfg).2⟩

def c2Bad : Sys := applyOp c2Init (.ready 0)

def c3Cfg : List ShelfConfig :=
  [{ name := "hot", capacity := 1, supported := ["hot"], decayRate := 1, type := "" }]

def c3O : Order := { newOrder "o2" "soup" "hot" 100 1 with state := .created }

def c4ShelfA : StaticShelf :=
  { name := "a", orders := ["o4"], numOrders := 1, capacity := 1,
    supported := ["hot"], decayRate := 2 }

def c4ShelfB : StaticShelf :=
  { name := "b", orders := [], numOrders := 0, capacity := 1,
    supported := ["hot"], decayRate := 1 }

def c4O : Order :=
  { newOrder "o4" "soup" "hot" 100 1 with state := .ready, shelf := some 0, placedAt := 3 }

def c5Shelf : StaticShelf :=
  { name := "full", orders := ["x"], numOrders := 1, capacity := 1,
    supported := ["hot"], decayRate := 1 }

def c5O : Order := { newOrder "o5" "soup" "hot" 100 1 with state := .created }

def c6ShelfWorse : StaticShelf :=
  { name := "worse", orders := ["o6"], numOrders := 1, capacity := 1,
    supported := ["hot"], decayRate := 2 }

def c6ShelfBetter : StaticShelf :=
  { name := "better", orders := [], numOrders := 0, capacity := 1,
    supported := ["hot"], decayRate := 1 }

def c6O : Order :=
  { newOrder "o6" "soup" "hot" 100 0 with state := .ready, shelf := some 0 }

def c8Cfg : List ShelfConfig :=
  [{ name := "worse", capacity := 1, supported := ["hot"], decayRate := 2, type := "" },
   { name := "better", capacity := 1, supported := ["hot"], decayRate := 1, type := "" }]

def c8K : Kitchen := (newKitchen c8Cfg).1

def c8Sh : List StaticShelf := (newKitchen c8Cfg).2

def c8O : Order := newOrder "o8" "soup" "hot" 100 1

def c9Cfg : ShelfConfig :=
  { name := "hot", capacity := 10, supported := ["hot"], decayRate := 1,
    type := "static" }

def c10O : Order := { newOrder "oX" "soup" "hot" 100 1 with state := .trashed }

/-! ### Basic helper lemmas about the shelf and order primitives -/

/-- Fields of the order untouched by `removeOrder`, and the detached shelf. -/
theorem removeOrder_fields (o : Order) (sh : List StaticShelf) (now : ℚ) :
    (removeOrder o sh now).1.state = o.state ∧
    (removeOrder o sh now).1.id = o.id ∧
    (removeOrder o sh now).1.temp = o.temp ∧
    (removeOrder o sh now).1.readyAt = o.readyAt ∧
    (removeOrder o sh now).1.placedAt = o.placedAt ∧
    (removeOrder o sh now).1.shelf = none ∧
    (removeOrder o sh now).1.shelfLife = o.shelfLife ∧
    (removeOrder o sh now).1.baseDecayRate = o.baseDecayRate ∧
    (removeOrder o sh now).1.createdAt = o.createdAt ∧
    (removeOrder o sh now).1.enrouteAt = o.enrouteAt ∧
    (removeOrder o sh now).1.pickedUpAt = o.pickedUpAt ∧
    (removeOrder o sh now).1.trashedAt = o.trashedAt := by
  unfold removeOrder
  cases h : o.shelf <;> simp [h]

/-- A failing `SetShelf` mutates nothing and returns the put error. -/
theorem setShelf_err (o : Order) (sh : List StaticShelf) (now : ℚ) (target : Nat)
    (e : KError) (h : (o.setShelf sh now target).2.2 = some e) :
    o.setShelf sh now target = (o, sh, some e) := by
  unfold Order.setShelf at *
  split at h
  · simp_all
  · rename_i s hs
    rcases hput : s.put o.id with ⟨s1, err⟩
    cases err
    · simp [hput] at h
    · simp [hput] at h ⊢
      exact h

/-- `Put` preserves the shelf metadata. -/
theorem put_meta (s : StaticShelf) (oid : String) :
    (s.put oid).1.decayRate = s.decayRate ∧
    (s.put oid).1.capacity = s.capacity ∧
    (s.put oid).1.supported = s.supported ∧
    (s.put oid).1.name = s.name := by
  unfold StaticShelf.put
  split
  · exact ⟨rfl, rfl, rfl, rfl⟩
  · split <;> exact ⟨rfl, rfl, rfl, rfl⟩

/-- A successful `Put` leaves the id in the shelf map. -/
theorem put_mem (s : StaticShelf) (oid : String)
    (h : (s.put oid).2 = none) : oid ∈ (s.put oid).1.orders := by
  unfold StaticShelf.put at *
  by_cases h1 : oid ∈ s.orders
  · rw [if_pos h1]
    exact h1
  · rw [if_neg h1] at h ⊢
    by_cases h2 : s.capacity ≤ s.numOrders
    · rw [if_pos h2] at h
      simp at h
    · rw [if_neg h2]
      simp

/-- `Put` succeeds exactly when the id is present or there is room. -/
theorem put_ok_iff (s : StaticShelf) (oid : String) :
    (s.put oid).2 = none ↔ (oid ∈ s.orders ∨ s.numOrders < s.capacity) := by
  unfold StaticShelf.put
  split
  · simp_all
  · split <;> simp_all

/-- `prevDecayed` bookkeeping of `removeOrder`. -/
theorem removeOrder_prevDecayed (o : Order) (sh : List StaticShelf) (now : ℚ) :
    (o.shelf = none → (removeOrder o sh now).1.prevDecayed = o.prevDecayed) ∧
    (∀ a, o.shelf = some a →
      (removeOrder o sh now).1.prevDecayed
        = o.prevDecayed + shelfDecay sh a * (now - o.placedAt)) := by
  unfold removeOrder
  cases h : o.shelf <;> simp [h]

/-- Heap effect of `removeOrder` with no current shelf. -/
theorem removeOrder_heap_none (o : Order) (sh : List StaticShelf) (now : ℚ)
    (h : o.shelf = none) : (removeOrder o sh now).2 = sh := by
  unfold removeOrder
  simp [h]

/-- Heap effect of `removeOrder` with a current shelf. -/
theorem removeOrder_heap_some (o : Order) (sh : List StaticShelf) (now : ℚ)
    (a : Nat) (ha : o.shelf = some a) :
    (removeOrder o sh now).2
      = match sh.get? a with
        | some s => sh.set a (s.remove o.id).1
        | none => sh := by
  unfold removeOrder
  simp [ha]

/-- Success of `SetShelf` unfolded: the put target, the updated heap and
the final order. -/
theorem setShelf_ok_spec (o : Order) (sh : List StaticShelf) (now : ℚ) (target : Nat)
    (h : (o.setShelf sh now target).2.2 = none) :
    ∃ s s1, sh.get? target = some s ∧ s.put o.id = (s1, none) ∧
      (o.setShelf sh now target).1
        = { (removeOrder o (sh.set target s1) now).1 with
            shelf := some target, placedAt := now } ∧
      (o.setShelf sh now target).2.1 = (removeOrder o (sh.set target s1) now).2 := by
  unfold Order.setShelf at *
  split at h
  · simp at h
  · rename_i s hs
    rcases hput : s.put o.id with ⟨s1, err⟩
    cases err
    · refine ⟨s, s1, hs, hput, ?_⟩
      simp [hput]
    · simp [hput] at h

/-- Field view of a successful `SetShelf`. -/
theorem setShelf_ok_fields (o : Order) (sh : List StaticShelf) (now : ℚ) (target : Nat)
    (h : (o.setShelf sh now target).2.2 = none) :
    (o.setShelf sh now target).1.state = o.state ∧
    (o.setShelf sh now target).1.id = o.id ∧
    (o.setShelf sh now target).1.temp = o.temp ∧
    (o.setShelf sh now target).1.readyAt = o.readyAt ∧
    (o.setShelf sh now target).1.shelf = some target ∧
    (o.setShelf sh now target).1.placedAt = now ∧
    (o.setShelf sh now target).1.shelfLife = o.shelfLife ∧
    (o.setShelf sh now target).1.baseDecayRate = o.baseDecayRate := by
  obtain ⟨s, s1, hs, hput, ho, hsh⟩ := setShelf_ok_spec o sh now target h
  rw [ho]
  have hrf := removeOrder_fields o (sh.set target s1) now
  exact ⟨hrf.1, hrf.2.1, hrf.2.2.1, hrf.2.2.2.1, rfl, rfl,
    hrf.2.2.2.2.2.2.1, hrf.2.2.2.2.2.2.2.1⟩

/-- Setting an index to a shelf with the same decay rate leaves every
`shelfDecay` unchanged. -/
theorem shelfDecay_set (sh : List StaticShelf) (i : Nat) (s s1 : StaticShelf)
    (hget : sh.get? i = some s) (hdr : s1.decayRate = s.decayRate) (c : Nat) :
    shelfDecay (sh.set i s1) c = shelfDecay sh c := by
  unfold shelfDecay
  have hlt : i < sh.length := (List.get?_eq_some.mp hget).1
  rw [List.get?_set_of_lt' s1 sh hlt]
  by_cases hci : i = c
  · subst hci
    have hget2 : sh[i]? = some s := by simpa using hget
    simp [hget2, hdr]
  · simp [hci]

/-- Wrong expected state: no mutation, `wrongState` error. -/
theorem transitionOrder_wrongState (o : Order) (sh : List StaticShelf) (now : ℚ)
    (expected next : OrderState) (se) (h : o.state ≠ expected) :
    o.transitionOrder sh now expected next se = (o, sh, some .wrongState) := by
  unfold Order.transitionOrder
  rw [if_pos h]

/-- Terminal current state (matching the expectation): `terminal` error. -/
theorem transitionOrder_terminal (o : Order) (sh : List StaticShelf) (now : ℚ)
    (expected next : OrderState) (se) (h : o.state = expected)
    (ht : o.state = .pickedUp ∨ o.state = .trashed) :
    o.transitionOrder sh now expected next se = (o, sh, some .terminal) := by
  unfold Order.transitionOrder
  rw [if_neg (not_not_intro h), if_pos ht]

/-- Expired at transition time: hijacked to Trashed with shelf detach. -/
theorem transitionOrder_expired (o : Order) (sh : List StaticShelf) (now : ℚ)
    (expected next : OrderState) (se) (h : o.state = expected)
    (ht : ¬(o.state = .pickedUp ∨ o.state = .trashed))
    (he : o.isExpired sh now = true) :
    o.transitionOrder sh now expected next se
      = ((removeOrder { o with state := .trashed, trashedAt := now } sh now).1,
         (removeOrder { o with state := .trashed, trashedAt := now } sh now).2,
         some .expired) := by
  unfold Order.transitionOrder
  rw [if_neg (not_not_intro h), if_neg ht, if_pos he]

/-- The normal path: state write then side effect. -/
theorem transitionOrder_step (o : Order) (sh : List StaticShelf) (now : ℚ)
    (expected next : OrderState) (se) (h : o.state = expected)
    (ht : ¬(o.state = .pickedUp ∨ o.state = .trashed))
    (he : o.isExpired sh now = false) :
    o.transitionOrder sh now expected next se = se { o with state := next } sh := by
  unfold Order.transitionOrder
  rw [if_neg (not_not_intro h), if_neg ht, if_neg (by simp [he])]

/-- Only Ready/Enroute orders can be expired. -/
theorem isExpired_state (o : Order) (sh : List StaticShelf) (now : ℚ)
    (h : o.isExpired sh now = true) : o.state = .ready ∨ o.state = .enroute := by
  unfold Order.isExpired at h
  cases hs : o.state <;> rw [hs] at h <;> simp_all

/-- An order that is neither Ready nor Enroute is never expired. -/
theorem isExpired_not_active (o : Order) (sh : List StaticShelf) (now : ℚ)
    (h1 : o.state ≠ .ready) (h2 : o.state ≠ .enroute) :
    o.isExpired sh now = false := by
  unfold Order.isExpired
  cases hs : o.state <;> simp_all

/-- A Ready or Enroute order with non-positive value is expired. -/
theorem isExpired_of_value (o : Order) (sh : List StaticShelf) (now : ℚ)
    (hs : o.state = .ready ∨ o.state = .enroute) (hv : o.value sh now ≤ 0) :
    o.isExpired sh now = true := by
  unfold Order.isExpired
  rcases hs with hs | hs <;> rw [hs] <;> simpa using hv

/-- `SetShelf` succeeds whenever the target exists and `Put` accepts. -/
theorem setShelf_ok_of_putOk (o : Order) (sh : List StaticShelf) (now : ℚ) (sid : Nat)
    (h : putOkB sh o.id sid = true) : (o.setShelf sh now sid).2.2 = none := by
  unfold putOkB at h
  unfold Order.setShelf
  split at h
  · rename_i s hs
    rw [hs]
    rcases hput : s.put o.id with ⟨s1, err⟩
    cases err
    · simp [hput]
    · have := (put_ok_iff s o.id).mpr (by
        rcases Bool.or_eq_true _ _ |>.mp h with h' | h'
        · exact Or.inl (by simpa using h')
        · exact Or.inr (by simpa using h'))
      rw [hput] at this
      simp at this
  · simp at h

/-- The inner loop over one candidate's supported temperatures either
leaves everything unchanged and reports failure, or commits exactly one
successful `SetShelf` on that candidate, which then supports the order's
temperature and passed both skip tests. -/
theorem tryShelfSup_spec (now : ℚ) (current : Option Nat) (sid : Nat)
    (o : Order) (sh : List StaticShelf) (sups : List String) :
    tryShelfSup now current sid o sh sups = (o, sh, false) ∨
    (o.temp ∈ sups ∧ current ≠ some sid ∧ skipWorse sh current sid = false ∧
      (o.setShelf sh now sid).2.2 = none ∧
      tryShelfSup now current sid o sh sups
        = ((o.setShelf sh now sid).1, (o.setShelf sh now sid).2.1, true)) := by
  induction sups with
  | nil => left; rfl
  | cons sup rest ih =>
    by_cases ht : o.temp = sup
    · by_cases hc : current = some sid
      · rcases ih with h | ⟨hm, h2, h3, h4, h5⟩
        · left
          rw [tryShelfSup, if_pos ht, if_pos hc]
          exact h
        · exact absurd hc h2
      · by_cases hw : skipWorse sh current sid = true
        · rcases ih with h | ⟨hm, h2, h3, h4, h5⟩
          · left
            rw [tryShelfSup, if_pos ht, if_neg hc, if_pos hw]
            exact h
          · rw [h3] at hw
            exact absurd hw (by simp)
        · rcases herr : (o.setShelf sh now sid).2.2 with _ | e
          · right
            have hss : o.setShelf sh now sid
                = ((o.setShelf sh now sid).1, (o.setShelf sh now sid).2.1, none) := by
              rw [← herr]
            refine ⟨by rw [ht]; exact List.mem_cons_self _ _, hc, by simpa using hw, rfl, ?_⟩
            rw [tryShelfSup, if_pos ht, if_neg hc, if_neg hw]
            conv_lhs => rw [hss]
          · have heq : o.setShelf sh now sid = (o, sh, some e) :=
              setShelf_err o sh now sid e herr
            rcases ih with h | ⟨hm, h2, h3, h4, h5⟩
            · left
              rw [tryShelfSup, if_pos ht, if_neg hc, if_neg hw, heq]
              exact h
            · rw [h4] at herr
              simp at herr
    · rcases ih with h | ⟨hm, h2, h3, h4, h5⟩
      · left
        rw [tryShelfSup, if_neg ht]
        exact h
      · right
        refine ⟨List.mem_cons_of_mem _ hm, h2, h3, h4, ?_⟩
        rw [tryShelfSup, if_neg ht]
        exact h5

/-- The candidate loop either leaves everything unchanged and reports
failure, or commits exactly one successful `SetShelf` on some candidate
that supports the order's temperature and passed both skip tests. -/
theorem optimizeLoop_spec (now : ℚ) (current : Option Nat)
    (o : Order) (sh : List StaticShelf) (cands : List Nat) :
    optimizeLoop now current o sh cands = (o, sh, false) ∨
    (∃ sid, sid ∈ cands ∧ o.temp ∈ shelfSupported sh sid ∧ current ≠ some sid ∧
      skipWorse sh current sid = false ∧ (o.setShelf sh now sid).2.2 = none ∧
      optimizeLoop now current o sh cands
        = ((o.setShelf sh now sid).1, (o.setShelf sh now sid).2.1, true)) := by
  induction cands with
  | nil => left; rfl
  | cons sid rest ih =>
    rcases tryShelfSup_spec now current sid o sh (shelfSupported sh sid) with h | ⟨hm, h2, h3, h4, h5⟩
    · rcases ih with h' | ⟨sid', hmem, hsup, h2', h3', h4', h5'⟩
      · left
        rw [optimizeLoop, h]
        exact h'
      · right
        refine ⟨sid', List.mem_cons_of_mem _ hmem, hsup, h2', h3', h4', ?_⟩
        rw [optimizeLoop, h]
        exact h5'
    · right
      refine ⟨sid, List.mem_cons_self _ _, hm, h2, h3, h4, ?_⟩
      rw [optimizeLoop, h5]

/-- Completeness of the inner loop with no current shelf: a supported
temperature plus an accepting `Put` guarantee success. -/
theorem tryShelfSup_succeeds (now : ℚ) (sid : Nat) (o : Order)
    (sh : List StaticShelf) (sups : List String) (hmem : o.temp ∈ sups)
    (hok : (o.setShelf sh now sid).2.2 = none) :
    (tryShelfSup now none sid o sh sups).2.2 = true := by
  induction sups with
  | nil => simp at hmem
  | cons sup rest ih =>
    by_cases ht : o.temp = sup
    · have hsw : skipWorse sh none sid = false := rfl
      have hss : o.setShelf sh now sid
          = ((o.setShelf sh now sid).1, (o.setShelf sh now sid).2.1, none) := by
        rw [← hok]
      rw [tryShelfSup, if_pos ht, if_neg (by simp), if_neg (by simp [hsw])]
      conv_lhs => rw [hss]
    · have hmem' : o.temp ∈ rest := by
        rcases List.mem_cons.mp hmem with h | h
        · exact absurd h ht
        · exact h
      rw [tryShelfSup, if_neg ht]
      exact ih hmem'

/-- Completeness of the candidate loop with no current shelf: some
candidate supporting the temperature with an accepting `Put` guarantees a
successful placement. -/
theorem optimizeLoop_succeeds (now : ℚ) (o : Order) (sh : List StaticShelf)
    (cands : List Nat) (sid : Nat) (hmem : sid ∈ cands)
    (hsup : o.temp ∈ shelfSupported sh sid) (hok : putOkB sh o.id sid = true) :
    (optimizeLoop now none o sh cands).2.2 = true := by
  induction cands with
  | nil => simp at hmem
  | cons c rest ih =>
    rcases tryShelfSup_spec now none c o sh (shelfSupported sh c) with h | ⟨hm, h2, h3, h4, h5⟩
    · rcases List.mem_cons.mp hmem with hcase | hcase
      · subst hcase
        have := tryShelfSup_succeeds now sid o sh (shelfSupported sh sid) hsup
          (setShelf_ok_of_putOk o sh now sid hok)
        rw [h] at this
        simp at this
      · rw [optimizeLoop, h]
        exact ih hcase
    · rw [optimizeLoop, h5]

/-- An expired order is trashed and detached by the placement routine,
which then reports failure. -/
theorem optimizePlacement_expired (o : Order) (sh : List StaticShelf) (now : ℚ)
    (cands : List Nat) (he : o.isExpired sh now = true) :
    optimizePlacement o sh now cands
      = ((removeOrder { o with state := .trashed, trashedAt := now } sh now).1,
         (removeOrder { o with state := .trashed, trashedAt := now } sh now).2,
         false) := by
  have hst := isExpired_state o sh now he
  have hterm : ¬(o.state = .pickedUp ∨ o.state = .trashed) := by
    rcases hst with h | h <;> rw [h] <;> simp
  unfold optimizePlacement
  rw [if_pos he, transitionOrder_expired o sh now o.state .trashed noEffect rfl hterm he]

/-- A non-expired order goes through the candidate loop with its current
shelf as the snapshot. -/
theorem optimizePlacement_not_expired (o : Order) (sh : List StaticShelf) (now : ℚ)
    (cands : List Nat) (he : o.isExpired sh now = false) :
    optimizePlacement o sh now cands = optimizeLoop now o.shelf o sh cands := by
  unfold optimizePlacement
  rw [if_neg (by simp [he])]

/-- A successful `SetShelf` implies the target's `Put` accepted. -/
theorem putOk_of_setShelf_ok (o : Order) (sh : List StaticShelf) (now : ℚ) (sid : Nat)
    (h : (o.setShelf sh now sid).2.2 = none) : putOkB sh o.id sid = true := by
  unfold Order.setShelf at h
  unfold putOkB
  split at h
  · simp at h
  · rename_i s hs
    rw [hs]
    rcases hput : s.put o.id with ⟨s1, err⟩
    cases err
    · have := (put_ok_iff s o.id).mp (by rw [hput])
      rcases this with h' | h'
      · simp [h']
      · simp [h']
    · rw [hput] at h
      simp at h

/-- Membership is invariant under the decay sort. -/
theorem mem_sortByDecay (sh : List StaticShelf) (l : List Nat) (sid : Nat) :
    sid ∈ sortByDecay sh l ↔ sid ∈ l := by
  unfold sortByDecay
  exact (List.perm_insertionSort _ l).mem_iff

/-- `removeOrder` is the identity for unshelved orders. -/
theorem removeOrder_none (o : Order) (sh : List StaticShelf) (now : ℚ)
    (h : o.shelf = none) : removeOrder o sh now = (o, sh) := by
  unfold removeOrder
  rw [h]

/-- `SetOrderReady` on a Created order with an unsupported temperature:
trash, stamp, stay off the shelves, report `unsupported`. -/
theorem setOrderReady_created_unsupported (k : Kitchen) (o : Order)
    (sh : List StaticShelf) (now : ℚ) (hstate : o.state = .created)
    (hlookup : lookupIndex k.supportedIndex o.temp = none) :
    k.setOrderReady o sh now
      = (k, (removeOrder { o with state := .trashed, trashedAt := now } sh now).1,
            (removeOrder { o with state := .trashed, trashedAt := now } sh now).2,
            some .unsupported) := by
  have hterm : ¬(o.state = .pickedUp ∨ o.state = .trashed) := by rw [hstate]; simp
  have he : o.isExpired sh now = false :=
    isExpired_not_active o sh now (by rw [hstate]; simp) (by rw [hstate]; simp)
  simp only [Kitchen.setOrderReady, hlookup]
  rw [transitionOrder_step o sh now .created .trashed _ hstate hterm he]

/-- `SetOrderReady` on a Created unshelved order when every supporting
candidate rejects the put: trash, stamp, report `noShelf`. -/
theorem setOrderReady_created_noShelf (k : Kitchen) (o : Order)
    (sh : List StaticShelf) (now : ℚ) (cands : List Nat)
    (hstate : o.state = .created) (hshelf : o.shelf = none)
    (hlookup : lookupIndex k.supportedIndex o.temp = some cands)
    (hfail : ∀ sid ∈ cands, o.temp ∈ shelfSupported sh sid → putOkB sh o.id sid = false) :
    (k.setOrderReady o sh now).2.1 = { o with state := .trashed, trashedAt := now } ∧
    (k.setOrderReady o sh now).2.2.1 = sh ∧
    (k.setOrderReady o sh now).2.2.2 = some .noShelf := by
  have hterm : ¬(o.state = .pickedUp ∨ o.state = .trashed) := by rw [hstate]; simp
  have he : o.isExpired sh now = false :=
    isExpired_not_active o sh now (by rw [hstate]; simp) (by rw [hstate]; simp)
  have hloop : optimizeLoop now o.shelf o sh (sortByDecay sh cands) = (o, sh, false) := by
    rcases optimizeLoop_spec now o.shelf o sh (sortByDecay sh cands) with h |
      ⟨sid, hmem, hsup, hne, hsw, hok, heq⟩
    · exact h
    · have hcand : sid ∈ cands := (mem_sortByDecay sh cands sid).mp hmem
      have := hfail sid hcand hsup
      rw [putOk_of_setShelf_ok o sh now sid hok] at this
      simp at this
  have hopt : optimizePlacement o sh now (sortByDecay sh cands) = (o, sh, false) := by
    rw [optimizePlacement_not_expired o sh now _ he, hloop]
  simp only [Kitchen.setOrderReady, hlookup, hopt]
  rw [transitionOrder_step o sh now .created .trashed _ hstate hterm he]
  rw [removeOrder_none _ sh now (by exact hshelf)]
  exact ⟨rfl, rfl, rfl⟩

/-- `SetOrderReady` on a Created unshelved order when some supporting
candidate has room: the order is placed and becomes Ready. -/
theorem setOrderReady_created_placed (k : Kitchen) (o : Order)
    (sh : List StaticShelf) (now : ℚ) (cands : List Nat)
    (hstate : o.state = .created) (hshelf : o.shelf = none)
    (hlookup : lookupIndex k.supportedIndex o.temp = some cands)
    (hsucc : ∃ sid, sid ∈ cands ∧ o.temp ∈ shelfSupported sh sid ∧ putOkB sh o.id sid = true) :
    (k.setOrderReady o sh now).2.2.2 = none ∧
    (k.setOrderReady o sh now).2.1.state = .ready ∧
    (k.setOrderReady o sh now).2.1.readyAt = now ∧
    ∃ sid, sid ∈ cands ∧ o.temp ∈ shelfSupported sh sid ∧
      (k.setOrderReady o sh now).2.1.shelf = some sid ∧
      ∃ s1, (k.setOrderReady o sh now).2.2.1.get? sid = some s1 ∧ o.id ∈ s1.orders := by
  have he : o.isExpired sh now = false :=
    isExpired_not_active o sh now (by rw [hstate]; simp) (by rw [hstate]; simp)
  obtain ⟨sid0, hmem0, hsup0, hok0⟩ := hsucc
  have htrue : (optimizeLoop now none o sh (sortByDecay sh cands)).2.2 = true :=
    optimizeLoop_succeeds now o sh _ sid0 ((mem_sortByDecay sh cands sid0).mpr hmem0)
      hsup0 hok0
  rcases optimizeLoop_spec now none o sh (sortByDecay sh cands) with h |
    ⟨sid, hmem, hsup, hne, hsw, hok, heq⟩
  · rw [h] at htrue
    simp at htrue
  · have hcand : sid ∈ cands := (mem_sortByDecay sh cands sid).mp hmem
    have hfields := setShelf_ok_fields o sh now sid hok
    obtain ⟨s, s1, hs, hput, ho1, hsh1⟩ := setShelf_ok_spec o sh now sid hok
    have hloop : optimizeLoop now o.shelf o sh (sortByDecay sh cands)
        = ((o.setShelf sh now sid).1, (o.setShelf sh now sid).2.1, true) := by
      rw [hshelf]
      exact heq
    have hopt : optimizePlacement o sh now (sortByDecay sh cands)
        = ((o.setShelf sh now sid).1, (o.setShelf sh now sid).2.1, true) := by
      rw [optimizePlacement_not_expired o sh now _ he, hloop]
    have hstate1 : (o.setShelf sh now sid).1.state = .created := by
      rw [hfields.1, hstate]
    have he1 : (o.setShelf sh now sid).1.isExpired (o.setShelf sh now sid).2.1 now = false :=
      isExpired_not_active _ _ now (by rw [hstate1]; simp) (by rw [hstate1]; simp)
    have hterm1 : ¬((o.setShelf sh now sid).1.state = .pickedUp ∨
        (o.setShelf sh now sid).1.state = .trashed) := by
      rw [hstate1]; simp
    simp only [Kitchen.setOrderReady, hlookup, hopt]
    rw [transitionOrder_step _ _ now .created .ready _ hstate1 hterm1 he1]
    refine ⟨rfl, rfl, rfl, sid, hcand, hsup, ?_, ?_⟩
    · show (o.setShelf sh now sid).1.shelf = some sid
      exact hfields.2.2.2.2.1
    · show ∃ s2, (o.setShelf sh now sid).2.1.get? sid = some s2 ∧ o.id ∈ s2.orders
      refine ⟨s1, ?_, ?_⟩
      · rw [hsh1, removeOrder_none o _ now hshelf]
        have hlt : sid < sh.length := (List.get?_eq_some.mp hs).1
        rw [List.get?_set_of_lt' s1 sh hlt]
        simp
      · have := put_mem s o.id (by rw [hput])
        rw [hput] at this
        exact this

/-- An order that is not Ready or Enroute satisfies the invariant exactly
when it is unshelved. -/
theorem inv_shelf_none (o : Order) (hinv : shelfStateInv o)
    (h1 : o.state ≠ .ready) (h2 : o.state ≠ .enroute) : o.shelf = none := by
  by_contra hne
  rcases hinv.mp hne with h | h
  · exact h1 h
  · exact h2 h

/-- A Ready or Enroute order satisfying the invariant is shelved. -/
theorem inv_shelf_some (o : Order) (hinv : shelfStateInv o)
    (h : o.state = .ready ∨ o.state = .enroute) : ∃ c, o.shelf = some c := by
  have := hinv.mpr h
  cases hc : o.shelf
  · exact absurd hc this
  · exact ⟨_, rfl⟩

/-- The invariant holds for any trashed detached order shape produced by
the expiry path. -/
theorem inv_of_removeOrder_trashed (o : Order) (sh : List StaticShelf) (now : ℚ) :
    shelfStateInv (removeOrder { o with state := .trashed, trashedAt := now } sh now).1 := by
  have hf := removeOrder_fields { o with state := .trashed, trashedAt := now } sh now
  unfold shelfStateInv
  rw [hf.1, hf.2.2.2.2.2.1]
  simp

/-- `SetOrderReady` preserves the shelf/state invariant whenever it is
applied to a Created, Ready or Enroute order (as the repository does). -/
theorem setOrderReady_preserves_inv (k : Kitchen) (o : Order) (sh : List StaticShelf)
    (now : ℚ)
    (hg : o.state = .created ∨ o.state = .ready ∨ o.state = .enroute)
    (hinv : shelfStateInv o) : shelfStateInv (k.setOrderReady o sh now).2.1 := by
  rcases hg with hstate | hg
  · -- Created order: the C3 branches.
    have hshelf : o.shelf = none :=
      inv_shelf_none o hinv (by rw [hstate]; simp) (by rw [hstate]; simp)
    cases hlookup : lookupIndex k.supportedIndex o.temp with
    | none =>
      rw [setOrderReady_created_unsupported k o sh now hstate hlookup]
      exact inv_of_removeOrder_trashed o sh now
    | some cands =>
      have he : o.isExpired sh now = false :=
        isExpired_not_active o sh now (by rw [hstate]; simp) (by rw [hstate]; simp)
      rcases optimizeLoop_spec now o.shelf o sh (sortByDecay sh cands) with h |
        ⟨sid, hmem, hsup, hne, hsw, hok, heq⟩
      · have hopt : optimizePlacement o sh now (sortByDecay sh cands) = (o, sh, false) := by
          rw [optimizePlacement_not_expired o sh now _ he, h]
        have hterm : ¬(o.state = .pickedUp ∨ o.state = .trashed) := by rw [hstate]; simp
        simp only [Kitchen.setOrderReady, hlookup, hopt]
        rw [transitionOrder_step o sh now .created .trashed _ hstate hterm he]
        rw [removeOrder_none _ sh now (by exact hshelf)]
        unfold shelfStateInv
        simp [hshelf]
      · have hopt : optimizePlacement o sh now (sortByDecay sh cands)
            = ((o.setShelf sh now sid).1, (o.setShelf sh now sid).2.1, true) := by
          rw [optimizePlacement_not_expired o sh now _ he, heq]
        have hfields := setShelf_ok_fields o sh now sid hok
        have hstate1 : (o.setShelf sh now sid).1.state = .created := by
          rw [hfields.1, hstate]
        have he1 : (o.setShelf sh now sid).1.isExpired (o.setShelf sh now sid).2.1 now = false :=
          isExpired_not_active _ _ now (by rw [hstate1]; simp) (by rw [hstate1]; simp)
        have hterm1 : ¬((o.setShelf sh now sid).1.state = .pickedUp ∨
            (o.setShelf sh now sid).1.state = .trashed) := by
          rw [hstate1]; simp
        simp only [Kitchen.setOrderReady, hlookup, hopt]
        rw [transitionOrder_step _ _ now .created .ready _ hstate1 hterm1 he1]
        unfold shelfStateInv
        have hsome : (o.setShelf sh now sid).1.shelf = some sid := hfields.2.2.2.2.1
        show ({ (o.setShelf sh now sid).1 with
            state := OrderState.ready, readyAt := now } : Order).shelf ≠ none ↔ _
        simp [hsome]
  · -- Ready or Enroute order.
    have hnc : o.state ≠ .created := by rcases hg with h | h <;> rw [h] <;> simp
    cases hlookup : lookupIndex k.supportedIndex o.temp with
    | none =>
      simp only [Kitchen.setOrderReady, hlookup]
      rw [transitionOrder_wrongState o sh now .created .trashed _ hnc]
      exact hinv
    | some cands =>
      cases he : o.isExpired sh now with
      | true =>
        have hopt := optimizePlacement_expired o sh now (sortByDecay sh cands) he
        have hrf := removeOrder_fields { o with state := .trashed, trashedAt := now } sh now
        have hnc1 : (removeOrder { o with state := .trashed, trashedAt := now } sh now).1.state
            ≠ .created := by rw [hrf.1]; simp
        simp only [Kitchen.setOrderReady, hlookup, hopt]
        rw [transitionOrder_wrongState _ _ now .created .trashed _ hnc1]
        exact inv_of_removeOrder_trashed o sh now
      | false =>
        rcases optimizeLoop_spec now o.shelf o sh (sortByDecay sh cands) with h |
          ⟨sid, hmem, hsup, hne, hsw, hok, heq⟩
        · have hopt : optimizePlacement o sh now (sortByDecay sh cands) = (o, sh, false) := by
            rw [optimizePlacement_not_expired o sh now _ he, h]
          simp only [Kitchen.setOrderReady, hlookup, hopt]
          rw [transitionOrder_wrongState o sh now .created .trashed _ hnc]
          exact hinv
        · have hopt : optimizePlacement o sh now (sortByDecay sh cands)
              = ((o.setShelf sh now sid).1, (o.setShelf sh now sid).2.1, true) := by
            rw [optimizePlacement_not_expired o sh now _ he, heq]
          have hfields := setShelf_ok_fields o sh now sid hok
          have hnc1 : (o.setShelf sh now sid).1.state ≠ .created := by
            rw [hfields.1]; exact hnc
          simp only [Kitchen.setOrderReady, hlookup, hopt]
          rw [if_pos trivial]
          unfold shelfStateInv
          rw [transitionOrder_wrongState _ _ now .created .ready _ hnc1]
          show (o.setShelf sh now sid).1.shelf ≠ none ↔ _
          rw [hfields.1, hfields.2.2.2.2.1]
          simp [hg]

/-- `CreateOrder` preserves the invariant on fresh (uninitialized)
orders. -/
theorem createOrder_preserves_inv (k : Kitchen) (o : Order) (sh : List StaticShelf)
    (now : ℚ) (hg : o.state = .uninit) (hinv : shelfStateInv o) :
    shelfStateInv (k.createOrder o sh now).2.1 := by
  have hshelf : o.shelf = none :=
    inv_shelf_none o hinv (by rw [hg]; simp) (by rw [hg]; simp)
  have hterm : ¬(o.state = .pickedUp ∨ o.state = .trashed) := by rw [hg]; simp
  have he : o.isExpired sh now = false :=
    isExpired_not_active o sh now (by rw [hg]; simp) (by rw [hg]; simp)
  unfold Kitchen.createOrder
  rw [transitionOrder_step o sh now .uninit .created _ hg hterm he]
  exact setOrderReady_preserves_inv k _ sh now (Or.inl rfl) (by
    unfold shelfStateInv
    show o.shelf ≠ none ↔ _
    simp [hshelf])

/-- `SetOrderEnroute` preserves the invariant on every order. -/
theorem setOrderEnroute_preserves_inv (o : Order) (sh : List StaticShelf) (now : ℚ)
    (hinv : shelfStateInv o) : shelfStateInv (setOrderEnroute o sh now).1 := by
  unfold setOrderEnroute
  by_cases hs : o.state = .ready
  · have hterm : ¬(o.state = .pickedUp ∨ o.state = .trashed) := by rw [hs]; simp
    cases he : o.isExpired sh now with
    | true =>
      rw [transitionOrder_expired o sh now .ready .enroute _ hs hterm he]
      exact inv_of_removeOrder_trashed o sh now
    | false =>
      rw [transitionOrder_step o sh now .ready .enroute _ hs hterm he]
      unfold shelfStateInv
      show o.shelf ≠ none ↔ _
      simp [hinv.mpr (Or.inl hs)]
  · rw [transitionOrder_wrongState o sh now .ready .enroute _ hs]
    exact hinv

/-- `SetOrderPickedUp` preserves the invariant on every order. -/
theorem setOrderPickedUp_preserves_inv (o : Order) (sh : List StaticShelf) (now : ℚ)
    (hinv : shelfStateInv o) : shelfStateInv (setOrderPickedUp o sh now).1 := by
  unfold setOrderPickedUp
  by_cases hs : o.state = .enroute
  · have hterm : ¬(o.state = .pickedUp ∨ o.state = .trashed) := by rw [hs]; simp
    cases he : o.isExpired sh now with
    | true =>
      rw [transitionOrder_expired o sh now .enroute .pickedUp _ hs hterm he]
      exact inv_of_removeOrder_trashed o sh now
    | false =>
      rw [transitionOrder_step o sh now .enroute .pickedUp _ hs hterm he]
      have hrf := removeOrder_fields
        { o with state := .pickedUp, pickedUpAt := now } sh now
      unfold shelfStateInv
      show (removeOrder { o with state := .pickedUp, pickedUpAt := now } sh now).1.shelf
          ≠ none ↔ _
      rw [hrf.2.2.2.2.2.1, hrf.1]
      simp
  · rw [transitionOrder_wrongState o sh now .enroute .pickedUp _ hs]
    exact hinv

/-- The placement routine preserves the invariant on shelved (Ready or
Enroute) orders, which is how the decay minimizer invokes it. -/
theorem optimizePlacement_preserves_inv (o : Order) (sh : List StaticShelf) (now : ℚ)
    (cands : List Nat) (hg : o.state = .ready ∨ o.state = .enroute)
    (hinv : shelfStateInv o) : shelfStateInv (optimizePlacement o sh now cands).1 := by
  cases he : o.isExpired sh now with
  | true =>
    rw [optimizePlacement_expired o sh now cands he]
    exact inv_of_removeOrder_trashed o sh now
  | false =>
    rw [optimizePlacement_not_expired o sh now cands he]
    rcases optimizeLoop_spec now o.shelf o sh cands with h |
      ⟨sid, hmem, hsup, hne, hsw, hok, heq⟩
    · rw [h]
      exact hinv
    · rw [heq]
      have hfields := setShelf_ok_fields o sh now sid hok
      unfold shelfStateInv
      rw [hfields.1, hfields.2.2.2.2.1]
      simp [hg]

/-- C2 amended, inductive part: along guarded reachability the invariant
is preserved. -/
theorem guardedReach_preserves_inv (init s : Sys) (h : GuardedReach init s)
    (hinv : shelfStateInv init.order) : shelfStateInv s.order := by
  induction h with
  | refl => exact hinv
  | create h hg now ih => exact createOrder_preserves_inv _ _ _ now hg ih
  | ready h hg now ih => exact setOrderReady_preserves_inv _ _ _ now hg ih
  | enroute h now ih => exact setOrderEnroute_preserves_inv _ _ now ih
  | pickedup h now ih => exact setOrderPickedUp_preserves_inv _ _ now ih
  | optimize h hg now cands ih => exact optimizePlacement_preserves_inv _ _ now cands hg ih
  | env h sh ih => exact ih

/-- After `Remove`, the id is gone from a duplicate-free shelf map. -/
theorem remove_not_mem (t : StaticShelf) (oid : String) (hnd : t.orders.Nodup) :
    oid ∉ (t.remove oid).1.orders := by
  unfold StaticShelf.remove
  by_cases hm : oid ∈ t.orders
  · rw [if_pos hm]
    exact hnd.not_mem_erase
  · rw [if_neg hm]
    exact hm

/-- `Put` keeps the shelf map duplicate-free. -/
theorem put_nodup (s : StaticShelf) (oid : String) (hnd : s.orders.Nodup) :
    (s.put oid).1.orders.Nodup := by
  unfold StaticShelf.put
  by_cases hm : oid ∈ s.orders
  · rw [if_pos hm]
    exact hnd
  · rw [if_neg hm]
    by_cases hc : s.capacity ≤ s.numOrders
    · rw [if_pos hc]
      exact hnd
    · rw [if_neg hc]
      simp [List.nodup_append, hnd, hm]

/-- `Remove` preserves the shelf metadata. -/
theorem remove_meta (s : StaticShelf) (oid : String) :
    (s.remove oid).1.decayRate = s.decayRate ∧
    (s.remove oid).1.capacity = s.capacity ∧
    (s.remove oid).1.supported = s.supported ∧
    (s.remove oid).1.name = s.name := by
  unfold StaticShelf.remove
  split <;> exact ⟨rfl, rfl, rfl, rfl⟩

/-- Reading back the index just written. -/
theorem get?_set_self (l : List StaticShelf) (i : Nat) (a : StaticShelf)
    (h : i < l.length) : (l.set i a).get? i = some a := by
  rw [List.get?_set_of_lt' a l h]
  simp

/-- Looking up a different key is unaffected by `updateIndex`. -/
theorem lookupIndex_updateIndex_other (idx : List (String × List Nat))
    (t0 : String) (l : List Nat) (t : String) (h : t ≠ t0) :
    lookupIndex (updateIndex idx t0 l) t = lookupIndex idx t := by
  induction idx with
  | nil => rfl
  | cons p rest ih =>
    unfold updateIndex at *
    unfold lookupIndex at *
    by_cases hp : p.1 = t0
    · have hpt : ¬(p.1 == t) = true := by simp [hp, Ne.symm h]
      simp only [List.map_cons, List.find?]
      rw [if_pos (by simp [hp])]
      simp only [hpt]
      simp only [Bool.false_eq_true, if_false] at *
      exact ih
    · simp only [List.map_cons, List.find?]
      rw [if_neg (by simp [hp])]
      by_cases hpt : p.1 = t
      · simp [hpt]
      · simp only [show ¬(p.1 == t) = true by simp [hpt], Bool.false_eq_true, if_false] at *
        exact ih

/-- Looking up the rewritten key finds the new list (when the key was
present). -/
theorem lookupIndex_updateIndex_self (idx : List (String × List Nat))
    (t0 : String) (l l0 : List Nat) (h : lookupIndex idx t0 = some l0) :
    lookupIndex (updateIndex idx t0 l) t0 = some l := by
  induction idx with
  | nil => simp [lookupIndex] at h
  | cons p rest ih =>
    unfold updateIndex at *
    unfold lookupIndex at *
    by_cases hp : p.1 = t0
    · simp only [List.map_cons, List.find?]
      rw [if_pos (by simp [hp])]
      simp [hp]
    · simp only [List.map_cons, List.find?] at h ⊢
      rw [if_neg (by simp [hp])]
      simp only [show ¬(p.1 == t0) = true by simp [hp], Bool.false_eq_true, if_false] at *
      exact ih h

/-- The decay sort really sorts by decay. -/
theorem sortByDecay_sorted (sh : List StaticShelf) (l : List Nat) :
    (sortByDecay sh l).Pairwise (fun a b => shelfDecay sh a ≤ shelfDecay sh b) := by
  unfold sortByDecay
  haveI : IsTotal Nat (fun a b => shelfDecay sh a ≤ shelfDecay sh b) :=
    ⟨fun a b => le_total _ _⟩
  haveI : IsTrans Nat (fun a b => shelfDecay sh a ≤ shelfDecay sh b) :=
    ⟨fun a b c hab hbc => le_trans hab hbc⟩
  exact List.sorted_insertionSort _ l

/-- The decay sort is a permutation. -/
theorem sortByDecay_perm (sh : List StaticShelf) (l : List Nat) :
    (sortByDecay sh l).Perm l := List.perm_insertionSort _ l

/-- Every shelf operation preserves well-formedness. -/
theorem applyShelfOp_wf (s : StaticShelf) (op : ShelfOp) (h : shelfWF s) :
    shelfWF (applyShelfOp s op) := by
  obtain ⟨h1, h2, h3⟩ := h
  cases op with
  | put oid =>
    show shelfWF (s.put oid).1
    unfold StaticShelf.put
    by_cases hm : oid ∈ s.orders
    · rw [if_pos hm]
      exact ⟨h1, h2, h3⟩
    · rw [if_neg hm]
      by_cases hc : s.capacity ≤ s.numOrders
      · rw [if_pos hc]
        exact ⟨h1, h2, h3⟩
      · rw [if_neg hc]
        refine ⟨by simp [h1], by simp [List.nodup_append, h2, hm], by simp; omega⟩
  | remove oid =>
    show shelfWF (s.remove oid).1
    unfold StaticShelf.remove
    by_cases hm : oid ∈ s.orders
    · rw [if_pos hm]
      refine ⟨by simp [h1, List.length_erase_of_mem hm], h2.erase _, ?_⟩
      exact le_trans (List.erase_sublist _ _).length_le h3
    · rw [if_neg hm]
      exact ⟨h1, h2, h3⟩

/-- Every shelf operation preserves the capacity field. -/
theorem applyShelfOp_capacity (s : StaticShelf) (op : ShelfOp) :
    (applyShelfOp s op).capacity = s.capacity := by
  cases op with
  | put oid => exact (put_meta s oid).2.1
  | remove oid => exact (remove_meta s oid).2.1

/-- Sequences of shelf operations preserve well-formedness and capacity. -/
theorem runShelfOps_wf (ops : List ShelfOp) (s : StaticShelf) (h : shelfWF s) :
    shelfWF (runShelfOps s ops) ∧ (runShelfOps s ops).capacity = s.capacity := by
  induction ops generalizing s with
  | nil => exact ⟨h, rfl⟩
  | cons op rest ih =>
    have := ih (applyShelfOp s op) (applyShelfOp_wf s op h)
    refine ⟨this.1, ?_⟩
    rw [show runShelfOps s (op :: rest) = runShelfOps (applyShelfOp s op) rest from rfl]
    rw [this.2, applyShelfOp_capacity]

/-- The kitchen value returned by `SetOrderReady`: unchanged when the
temperature is unindexed, otherwise the per-temperature list is replaced by
its decay-sorted version (the observable effect of the in-place
`sort.Slice`). -/
theorem setOrderReady_kitchen_eq (k : Kitchen) (o : Order) (sh : List StaticShelf)
    (now : ℚ) :
    (lookupIndex k.supportedIndex o.temp = none →
      (k.setOrderReady o sh now).1 = k) ∧
    (∀ l0, lookupIndex k.supportedIndex o.temp = some l0 →
      (k.setOrderReady o sh now).1
        = { k with supportedIndex :=
              updateIndex k.supportedIndex o.temp (sortByDecay sh l0) }) := by
  constructor
  · intro hl
    simp only [Kitchen.setOrderReady, hl]
  · intro l0 hl
    simp only [Kitchen.setOrderReady, hl]
    split <;> rfl

/-! ### Claim theorems -/

/-- C1: when `TransitionOrder` is called on an order whose state matches
the expectation and is not terminal, and the order is expired at call time
(Ready or Enroute with value ≤ 0), the order is forced to Trashed with
`trashedAt` set to the clock, detached from its shelf (back-reference
cleared, the running decay of that shelf credited into `prevDecayed`, the
id removed from the shelf's map), the requested next state is not taken
(unless it was Trashed itself), and the `Expired` error is returned. -/
theorem transitionOrder_expired_path (o : Order) (sh : List StaticShelf) (now : ℚ)
    (expected next : OrderState)
    (se : Order → List StaticShelf → Order × List StaticShelf × Option KError)
    (hexp : o.state = expected)
    (hstate : o.state = .ready ∨ o.state = .enroute)
    (hval : o.value sh now ≤ 0)
    (sid : Nat) (hshelf : o.shelf = some sid)
    (s : StaticShelf) (hs : sh.get? sid = some s) (hnd : s.orders.Nodup) :
    (o.transitionOrder sh now expected next se).1.state = .trashed ∧
    (o.transitionOrder sh now expected next se).1.trashedAt = now ∧
    (o.transitionOrder sh now expected next se).1.shelf = none ∧
    (o.transitionOrder sh now expected next se).1.prevDecayed
      = o.prevDecayed + s.decayRate * (now - o.placedAt) ∧
    (o.transitionOrder sh now expected next se).2.1
      = sh.set sid (s.remove o.id).1 ∧
    o.id ∉ ((s.remove o.id).1).orders ∧
    (next ≠ .trashed → (o.transitionOrder sh now expected next se).1.state ≠ next) ∧
    (o.transitionOrder sh now expected next se).2.2 = some .expired := by
  have he : o.isExpired sh now = true := isExpired_of_value o sh now hstate hval
  have hterm : ¬(o.state = .pickedUp ∨ o.state = .trashed) := by
    rcases hstate with h | h <;> rw [h] <;> simp
  rw [transitionOrder_expired o sh now expected next se hexp hterm he]
  have hdec : shelfDecay sh sid = s.decayRate := by
    unfold shelfDecay
    rw [hs]
  simp only [removeOrder, hshelf, hs, hdec]
  refine ⟨?_, ?_, ?_, ?_, ?_, ?_, ?_, ?_⟩ <;> first
    | trivial
    | exact remove_not_mem s o.id hnd
    | (intro hne hcon; exact hne hcon.symm)

/-- C1 witness: a concrete Ready order far past its shelf life. -/
theorem transitionOrder_expired_path_witness :
    (c1Order.transitionOrder [c1Shelf] 100 .ready .enroute noEffect).1.state
        = .trashed ∧
    (c1Order.transitionOrder [c1Shelf] 100 .ready .enroute noEffect).1.shelf = none ∧
    (c1Order.transitionOrder [c1Shelf] 100 .ready .enroute noEffect).2.2
        = some .expired :=
  have h := transitionOrder_expired_path c1Order [c1Shelf] 100 .ready .enroute noEffect
    rfl (Or.inl rfl)
    (by
      norm_num [c1Order, c1Shelf, newOrder, Order.value, Order.rawValue,
        Order.decayed, Order.age, shelfDecay]
      rw [if_neg (by decide)]
      norm_num)
    0 rfl c1Shelf rfl (by decide)
  ⟨h.1, h.2.2.1, h.2.2.2.2.2.2.2⟩

/-- C2 counterexample: from a fresh order (a reachable starting state) a
single `SetOrderReady` call — one of the operations the claim quantifies
over — completes with the order placed on shelf 0 while its state is still
uninitialized, so the shelf/state equivalence fails at the completion of a
kitchen operation. -/
theorem shelf_state_iff_counterexample :
    Reach c2Init c2Bad ∧
    c2Bad.order.shelf = some 0 ∧
    c2Bad.order.state ≠ .ready ∧
    c2Bad.order.state ≠ .enroute ∧
    ¬ shelfStateInv c2Bad.order :=
  ⟨Reach.step Reach.refl (.ready 0), by decide, by decide, by decide, by decide⟩

/-- C2 (amended): the shelf/state equivalence `shelf ≠ null ↔ state ∈
{Ready, Enroute}` holds at the completion of every kitchen operation,
provided the operations are applied as the repository applies them:
`CreateOrder` to uninitialized orders, `SetOrderReady` to Created or
shelved (Ready/Enroute) orders, the placement optimizer to shelved orders,
and `SetOrderEnroute`/`SetOrderPickedUp` anywhere, with arbitrary
interleaved mutation of the shared shelf heap by other orders. -/
theorem shelf_state_iff_guarded_reach (init s : Sys) (h : GuardedReach init s)
    (hinv : shelfStateInv init.order) : shelfStateInv s.order :=
  guardedReach_preserves_inv init s h hinv

/-- C2 witness: the guarded invariant applied across a concrete
`CreateOrder` call. -/
theorem shelf_state_iff_guarded_reach_witness :
    shelfStateInv (applyOp c2Init (.create 0)).order :=
  shelf_state_iff_guarded_reach c2Init (applyOp c2Init (.create 0))
    (GuardedReach.create GuardedReach.refl (by decide) 0) (by decide)

/-- C3: `SetOrderReady` on a Created (unshelved) order.  If no shelf is
indexed under the order's temperature it is trashed (with `trashedAt`
stamped, off every shelf) and `Unsupported` is reported; if every indexed
supporting shelf rejects the put (at capacity) it is trashed and `NoShelf`
is reported; if some supporting candidate has room the order is placed on
a supporting shelf, moved Created → Ready with `readyAt` stamped, and the
call succeeds. -/
theorem setOrderReady_created_spec (k : Kitchen) (o : Order) (sh : List StaticShelf)
    (now : ℚ) (hstate : o.state = .created) (hshelf : o.shelf = none) :
    (lookupIndex k.supportedIndex o.temp = none →
      (k.setOrderReady o sh now).2.1.state = .trashed ∧
      (k.setOrderReady o sh now).2.1.trashedAt = now ∧
      (k.setOrderReady o sh now).2.1.shelf = none ∧
      (k.setOrderReady o sh now).2.2.2 = some .unsupported) ∧
    (∀ cands, lookupIndex k.supportedIndex o.temp = some cands →
      (∀ sid ∈ cands, o.temp ∈ shelfSupported sh sid → putOkB sh o.id sid = false) →
      (k.setOrderReady o sh now).2.1.state = .trashed ∧
      (k.setOrderReady o sh now).2.1.trashedAt = now ∧
      (k.setOrderReady o sh now).2.1.shelf = none ∧
      (k.setOrderReady o sh now).2.2.2 = some .noShelf) ∧
    (∀ cands, lookupIndex k.supportedIndex o.temp = some cands →
      (∃ sid, sid ∈ cands ∧ o.temp ∈ shelfSupported sh sid ∧ putOkB sh o.id sid = true) →
      (k.setOrderReady o sh now).2.2.2 = none ∧
      (k.setOrderReady o sh now).2.1.state = .ready ∧
      (k.setOrderReady o sh now).2.1.readyAt = now ∧
      ∃ sid, sid ∈ cands ∧ o.temp ∈ shelfSupported sh sid ∧
        (k.setOrderReady o sh now).2.1.shelf = some sid ∧
        ∃ s1, (k.setOrderReady o sh now).2.2.1.get? sid = some s1 ∧
          o.id ∈ s1.orders) := by
  refine ⟨?_, ?_, ?_⟩
  · intro hlookup
    rw [setOrderReady_created_unsupported k o sh now hstate hlookup]
    rw [removeOrder_none _ sh now (by exact hshelf)]
    exact ⟨rfl, rfl, hshelf, rfl⟩
  · intro cands hlookup hfail
    have h := setOrderReady_created_noShelf k o sh now cands hstate hshelf hlookup hfail
    rw [h.1]
    exact ⟨rfl, rfl, hshelf, h.2.2⟩
  · intro cands hlookup hsucc
    exact setOrderReady_created_placed k o sh now cands hstate hshelf hlookup hsucc

/-- C3 witness: the placed branch on a concrete one-shelf kitchen. -/
theorem setOrderReady_created_spec_witness :
    ((newKitchen c3Cfg).1.setOrderReady c3O (newKitchen c3Cfg).2 5).2.2.2 = none ∧
    ((newKitchen c3Cfg).1.setOrderReady c3O (newKitchen c3Cfg).2 5).2.1.state
      = .ready ∧
    ((newKitchen c3Cfg).1.setOrderReady c3O (newKitchen c3Cfg).2 5).2.1.readyAt = 5 :=
  have h := setOrderReady_created_spec (newKitchen c3Cfg).1 c3O (newKitchen c3Cfg).2 5
    rfl rfl
  have h3 := h.2.2 [0] (by decide) ⟨0, by decide, by decide, by decide⟩
  ⟨h3.1, h3.2.1, h3.2.2.1⟩

/-- C4: a successful `SetShelf(target)` stamps `placedAt` with the clock,
points the order at the target, leaves `prevDecayed` alone when the order
had no previous shelf, and otherwise credits exactly the previous shelf's
`decayRate · (now − placedAt)` into `prevDecayed` while removing the id
from the previous shelf's map. -/
theorem setShelf_success_spec (o : Order) (sh : List StaticShelf) (now : ℚ)
    (target : Nat) (hok : (o.setShelf sh now target).2.2 = none) :
    (o.setShelf sh now target).1.placedAt = now ∧
    (o.setShelf sh now target).1.shelf = some target ∧
    (o.shelf = none → (o.setShelf sh now target).1.prevDecayed = o.prevDecayed) ∧
    (∀ a sa, o.shelf = some a → sh.get? a = some sa →
      (o.setShelf sh now target).1.prevDecayed
        = o.prevDecayed + sa.decayRate * (now - o.placedAt) ∧
      (sa.orders.Nodup → ∀ sa2, (o.setShelf sh now target).2.1.get? a = some sa2 →
        o.id ∉ sa2.orders)) := by
  obtain ⟨s, s1, hs, hput, ho1, hsh1⟩ := setShelf_ok_spec o sh now target hok
  have hfields := setShelf_ok_fields o sh now target hok
  have hs1dr : s1.decayRate = s.decayRate := by
    have := (put_meta s o.id).1
    rw [hput] at this
    exact this
  have htlt : target < sh.length := (List.get?_eq_some.mp hs).1
  refine ⟨hfields.2.2.2.2.2.1, hfields.2.2.2.2.1, ?_, ?_⟩
  · intro hnone
    rw [ho1]
    show (removeOrder o (sh.set target s1) now).1.prevDecayed = o.prevDecayed
    exact (removeOrder_prevDecayed o _ now).1 hnone
  · intro a sa ha hsa
    have hsd : shelfDecay (sh.set target s1) a = sa.decayRate := by
      rw [shelfDecay_set sh target s s1 hs hs1dr a]
      unfold shelfDecay
      rw [hsa]
    constructor
    · rw [ho1]
      show (removeOrder o (sh.set target s1) now).1.prevDecayed
        = o.prevDecayed + sa.decayRate * (now - o.placedAt)
      rw [(removeOrder_prevDecayed o _ now).2 a ha, hsd]
    · intro hnd sa2 hsa2
      rw [hsh1] at hsa2
      rw [removeOrder_heap_some o (sh.set target s1) now a ha] at hsa2
      by_cases hat : a = target
      · subst hat
        rw [get?_set_self sh a s1 htlt] at hsa2
        rw [get?_set_self (sh.set a s1) a (s1.remove o.id).1
          (by simpa using htlt)] at hsa2
        have hnds : s.orders.Nodup := by
          rw [hs] at hsa
          rw [Option.some_injective _ hsa]
          exact hnd
        have hs1nd : s1.orders.Nodup := by
          have := put_nodup s o.id hnds
          rw [hput] at this
          exact this
        have := remove_not_mem s1 o.id hs1nd
        rw [show sa2 = (s1.remove o.id).1 from (Option.some_injective _ hsa2).symm]
        exact this
      · have hga : (sh.set target s1).get? a = some sa := by
          rw [List.get?_set_of_lt' s1 sh htlt]
          rw [if_neg (fun hcon => hat hcon.symm)]
          exact hsa
        rw [hga] at hsa2
        rw [get?_set_self (sh.set target s1) a (sa.remove o.id).1
          (by
            have := (List.get?_eq_some.mp hga).1
            simpa using this)] at hsa2
        have := remove_not_mem sa o.id hnd
        rw [show sa2 = (sa.remove o.id).1 from (Option.some_injective _ hsa2).symm]
        exact this

/-- C4 witness: moving a concrete order from shelf 0 to shelf 1. -/
theorem setShelf_success_spec_witness :
    (c4O.setShelf [c4ShelfA, c4ShelfB] 7 1).1.placedAt = 7 ∧
    (c4O.setShelf [c4ShelfA, c4ShelfB] 7 1).1.shelf = some 1 ∧
    (c4O.setShelf [c4ShelfA, c4ShelfB] 7 1).1.prevDecayed
      = 0 + c4ShelfA.decayRate * (7 - 3) :=
  have h := setShelf_success_spec c4O [c4ShelfA, c4ShelfB] 7 1 (by decide)
  have h4 := (h.2.2.2 0 c4ShelfA rfl rfl).1
  ⟨h.1, h.2.1, h4⟩

/-- C5: when the target shelf's `Put` rejects the order, `SetShelf`
returns that error and changes nothing — order fields, back-reference and
both shelves' maps are untouched; in particular a full target with the id
absent yields `AtCapacity`. -/
theorem setShelf_reject_spec (o : Order) (sh : List StaticShelf) (now : ℚ)
    (target : Nat) (e : KError) (h : (o.setShelf sh now target).2.2 = some e) :
    o.setShelf sh now target = (o, sh, some e) ∧
    (∀ s, sh.get? target = some s → o.id ∉ s.orders → s.capacity ≤ s.numOrders →
      e = .atCapacity) := by
  refine ⟨setShelf_err o sh now target e h, ?_⟩
  intro s hs hmem hcap
  unfold Order.setShelf at h
  simp only [hs] at h
  have hput : s.put o.id = (s, some .atCapacity) := by
    unfold StaticShelf.put
    rw [if_neg hmem, if_pos hcap]
  simp only [hput] at h
  simp at h
  exact h.symm

/-- C5 witness: a concrete full shelf rejects and nothing changes. -/
theorem setShelf_reject_spec_witness :
    c5O.setShelf [c5Shelf] 2 0 = (c5O, [c5Shelf], some .atCapacity) :=
  (setShelf_reject_spec c5O [c5Shelf] 2 0 .atCapacity (by decide)).1

/-- C6: for an order currently on shelf `c`, the placement routine either
leaves it detached (expiry trashing), leaves it where it was, or relocates
it to a strictly better (smaller decay) shelf; in every case the decay
rate of the holding shelf never increases. -/
theorem optimizePlacement_strict_improvement (o : Order) (sh : List StaticShelf)
    (now : ℚ) (cands : List Nat) (c : Nat) (hc : o.shelf = some c) :
    ((optimizePlacement o sh now cands).1.shelf = none ∨
     (optimizePlacement o sh now cands).1.shelf = some c ∨
     (∃ sid, (optimizePlacement o sh now cands).1.shelf = some sid ∧
        shelfDecay sh sid < shelfDecay sh c)) ∧
    (∀ sid, (optimizePlacement o sh now cands).1.shelf = some sid →
      shelfDecay sh sid ≤ shelfDecay sh c) := by
  cases he : o.isExpired sh now with
  | true =>
    rw [optimizePlacement_expired o sh now cands he]
    have hrf := removeOrder_fields { o with state := .trashed, trashedAt := now } sh now
    rw [show (removeOrder { o with state := .trashed, trashedAt := now } sh now).1.shelf
      = none from hrf.2.2.2.2.2.1]
    refine ⟨Or.inl rfl, ?_⟩
    intro sid hcon
    simp at hcon
  | false =>
    rw [optimizePlacement_not_expired o sh now cands he]
    rcases optimizeLoop_spec now o.shelf o sh cands with h |
      ⟨sid, hmem, hsup, hne, hsw, hok, heq⟩
    · rw [h]
      refine ⟨Or.inr (Or.inl hc), ?_⟩
      intro sid hsid
      rw [hc] at hsid
      rw [Option.some_injective _ hsid]
    · rw [heq]
      have hfields := setShelf_ok_fields o sh now sid hok
      rw [hc] at hsw
      have hlt : shelfDecay sh sid < shelfDecay sh c := by
        have : ¬(shelfDecay sh c ≤ shelfDecay sh sid) := by
          simpa [skipWorse] using hsw
        exact lt_of_not_le this
      rw [hfields.2.2.2.2.1]
      refine ⟨Or.inr (Or.inr ⟨sid, rfl, hlt⟩), ?_⟩
      intro sid2 hsid2
      rw [Option.some_injective _ hsid2] at hlt
      exact le_of_lt hlt

/-- C6 witness: a concrete shelved order ends detached, in place, or on a
strictly better shelf. -/
theorem optimizePlacement_strict_improvement_witness :
    (optimizePlacement c6O [c6ShelfWorse, c6ShelfBetter] 1 [1, 0]).1.shelf = none ∨
    (optimizePlacement c6O [c6ShelfWorse, c6ShelfBetter] 1 [1, 0]).1.shelf = some 0 ∨
    ∃ sid, (optimizePlacement c6O [c6ShelfWorse, c6ShelfBetter] 1 [1, 0]).1.shelf
        = some sid ∧
      shelfDecay [c6ShelfWorse, c6ShelfBetter] sid
        < shelfDecay [c6ShelfWorse, c6ShelfBetter] 0 :=
  (optimizePlacement_strict_improvement c6O [c6ShelfWorse, c6ShelfBetter] 1 [1, 0] 0
    rfl).1

/-- C7: starting from a fresh static shelf, no sequence of `Put`/`Remove`
operations ever pushes the occupancy beyond the capacity (the counter
always matches the map size), and `Put` on a full shelf with the id absent
fails with `AtCapacity` without mutating the shelf. -/
theorem shelf_capacity_invariant (name : String) (cap : Nat) (sup : List String)
    (dr : ℚ) (ops : List ShelfOp) :
    (runShelfOps (newStaticShelf name cap sup dr) ops).orders.length ≤ cap ∧
    (runShelfOps (newStaticShelf name cap sup dr) ops).numOrders
      = (runShelfOps (newStaticShelf name cap sup dr) ops).orders.length ∧
    (∀ (s : StaticShelf) (oid : String), oid ∉ s.orders → s.capacity ≤ s.numOrders →
      s.put oid = (s, some .atCapacity)) := by
  have hwf : shelfWF (newStaticShelf name cap sup dr) := by
    refine ⟨rfl, List.nodup_nil, ?_⟩
    simp [newStaticShelf]
  have h := runShelfOps_wf ops (newStaticShelf name cap sup dr) hwf
  refine ⟨?_, h.1.1, ?_⟩
  · have := h.1.2.2
    rw [h.2] at this
    exact this
  · intro s oid hmem hcap
    unfold StaticShelf.put
    rw [if_neg hmem, if_pos hcap]

/-- C7 witness: a concrete overfull op sequence stays within capacity and
a concrete full shelf rejects a put. -/
theorem shelf_capacity_invariant_witness :
    (runShelfOps (newStaticShelf "w" 2 ["hot"] 1)
      [ShelfOp.put "a", ShelfOp.put "b", ShelfOp.put "c",
       ShelfOp.remove "a"]).orders.length ≤ 2 ∧
    c5Shelf.put "y" = (c5Shelf, some .atCapacity) :=
  have h := shelf_capacity_invariant "w" 2 ["hot"] 1
    [ShelfOp.put "a", ShelfOp.put "b", ShelfOp.put "c", ShelfOp.remove "a"]
  ⟨h.1, h.2.2 c5Shelf "y" (by decide) (by decide)⟩

/-- C8 counterexample: on a kitchen built from a topology whose "hot"
shelves are not listed in ascending decay order, a single `SetOrderReady`
reorders the per-temperature list inside `supportedIndex` (the in-place
`sort.Slice` mutates the slice held by the map), so the index is not
read-only after construction. -/
theorem supportedIndex_mutation_counterexample :
    c8K.supportedIndex = [("hot", [0, 1])] ∧
    (c8K.setOrderReady c8O c8Sh 0).1.supportedIndex = [("hot", [1, 0])] ∧
    (c8K.setOrderReady c8O c8Sh 0).1.supportedIndex ≠ c8K.supportedIndex :=
  ⟨by decide, by decide, by decide⟩

/-- C8 (amended): `shelvesAsc` and `shelvesDesc` are never modified by
`SetOrderReady` (and the model takes no other operation near the kitchen
value), and the key set of `supportedIndex` with the per-key shelf
multisets is preserved; but the per-temperature list for the order's
temperature is re-sorted in place, ascending by decay rate — it ends up a
decay-sorted permutation of the constructed list rather than the
construction-time order. -/
theorem setOrderReady_kitchen_frame (k : Kitchen) (o : Order) (sh : List StaticShelf)
    (now : ℚ) :
    (k.setOrderReady o sh now).1.shelvesAsc = k.shelvesAsc ∧
    (k.setOrderReady o sh now).1.shelvesDesc = k.shelvesDesc ∧
    (lookupIndex k.supportedIndex o.temp = none →
      (k.setOrderReady o sh now).1 = k) ∧
    (∀ t, t ≠ o.temp →
      lookupIndex (k.setOrderReady o sh now).1.supportedIndex t
        = lookupIndex k.supportedIndex t) ∧
    (∀ l, lookupIndex k.supportedIndex o.temp = some l →
      lookupIndex (k.setOrderReady o sh now).1.supportedIndex o.temp
          = some (sortByDecay sh l) ∧
      (sortByDecay sh l).Perm l ∧
      (sortByDecay sh l).Pairwise (fun a b => shelfDecay sh a ≤ shelfDecay sh b)) := by
  have hk := setOrderReady_kitchen_eq k o sh now
  cases hlookup : lookupIndex k.supportedIndex o.temp with
  | none =>
    rw [hk.1 hlookup]
    refine ⟨rfl, rfl, fun _ => rfl, fun t ht => rfl, ?_⟩
    intro l hl
    simp at hl
  | some l0 =>
    rw [hk.2 l0 hlookup]
    refine ⟨rfl, rfl, ?_, ?_, ?_⟩
    · intro hcon
      simp at hcon
    · intro t ht
      exact lookupIndex_updateIndex_other k.supportedIndex o.temp
        (sortByDecay sh l0) t ht
    · intro l hl
      rw [show l = l0 from (Option.some_injective _ hl).symm]
      refine ⟨?_, sortByDecay_perm sh l0, sortByDecay_sorted sh l0⟩
      exact lookupIndex_updateIndex_self k.supportedIndex o.temp
        (sortByDecay sh l0) l0 hlookup

/-- C8 witness: the frame facts at the concrete counterexample kitchen. -/
theorem setOrderReady_kitchen_frame_witness :
    (c8K.setOrderReady c8O c8Sh 0).1.shelvesAsc = c8K.shelvesAsc ∧
    lookupIndex (c8K.setOrderReady c8O c8Sh 0).1.supportedIndex "hot"
      = some (sortByDecay c8Sh [0, 1]) ∧
    (sortByDecay c8Sh [0, 1]).Perm [0, 1] :=
  have h := setOrderReady_kitchen_frame c8K c8O c8Sh 0
  have h5 := h.2.2.2.2 [0, 1] (by decide)
  ⟨h.1, h5.1, h5.2.1⟩

/-- C9 (code bug): `buildShelf` on a descriptor of type "static" — the
only documented type, and per the code comment the intended default —
returns nil because the Go switch case has an empty body and does not fall
through, so `buildTopology` silently drops the shelf (no shelf, no index
entry); any other type string builds the shelf instead. -/
theorem buildShelf_static_dropped :
    buildShelf c9Cfg = none ∧
    buildTopology [c9Cfg] = ([], []) ∧
    buildShelf { c9Cfg with type := "custom" }
      = some (newStaticShelf "hot" 10 ["hot"] 1) ∧
    buildShelf { c9Cfg with type := "" }
      = some (newStaticShelf "hot" 10 ["hot"] 1) :=
  ⟨by decide, by decide, by decide, by decide⟩

/-- C10: `TransitionOrder` checks the expected state before the terminal
check, so a mismatched expectation returns `WrongState` with the order
untouched; `Terminal` can only surface when the expected state passed in
is itself terminal (given the repository's infallible side effects); and
`SetOrderEnroute`/`SetOrderPickedUp` on a terminal-state order therefore
return `WrongState`, never `Terminal`, mutating nothing. -/
theorem transitionOrder_wrongState_precedence (o : Order) (sh : List StaticShelf)
    (now : ℚ) (expected next : OrderState)
    (se : Order → List StaticShelf → Order × List StaticShelf × Option KError)
    (hse : ∀ o1 sh1, (se o1 sh1).2.2 = none) :
    (o.state ≠ expected →
      o.transitionOrder sh now expected next se = (o, sh, some .wrongState)) ∧
    ((o.transitionOrder sh now expected next se).2.2 = some .terminal →
      expected = .pickedUp ∨ expected = .trashed) ∧
    ((o.state = .pickedUp ∨ o.state = .trashed) →
      setOrderEnroute o sh now = (o, sh, some .wrongState) ∧
      setOrderPickedUp o sh now = (o, sh, some .wrongState)) := by
  refine ⟨fun h => transitionOrder_wrongState o sh now expected next se h, ?_, ?_⟩
  · intro hterm
    by_cases hexp : o.state = expected
    · by_cases ht : o.state = .pickedUp ∨ o.state = .trashed
      · rw [← hexp]
        exact ht
      · cases he : o.isExpired sh now with
        | true =>
          rw [transitionOrder_expired o sh now expected next se hexp ht he] at hterm
          simp at hterm
        | false =>
          rw [transitionOrder_step o sh now expected next se hexp ht he] at hterm
          rw [hse _ sh] at hterm
          simp at hterm
    · rw [transitionOrder_wrongState o sh now expected next se hexp] at hterm
      simp at hterm
  · intro ht
    have h1 : o.state ≠ .ready := by rcases ht with h | h <;> rw [h] <;> simp
    have h2 : o.state ≠ .enroute := by rcases ht with h | h <;> rw [h] <;> simp
    exact ⟨transitionOrder_wrongState o sh now .ready .enroute _ h1,
           transitionOrder_wrongState o sh now .enroute .pickedUp _ h2⟩

/-- C10 witness: a trashed order gets `WrongState`, not `Terminal`, from
the delivery transitions. -/
theorem transitionOrder_wrongState_precedence_witness :
    setOrderEnroute c10O [] 3 = (c10O, [], some .wrongState) ∧
    setOrderPickedUp c10O [] 3 = (c10O, [], some .wrongState) :=
  (transitionOrder_wrongState_precedence c10O [] 3 .ready .enroute noEffect
    (fun _ _ => rfl)).2.2 (Or.inr rfl)

end EffectiveRobot
